import Mathlib

/-!
# Verification of the C function sweeper

A shallow embedding of `src/main.rs` of the `c_function_sweeper`
repository: a lint that walks the tree-sitter syntax tree of each C
source/header file, records every `function_declarator` declaration
site and every `call_expression` call site into a registry keyed by
the function-name text, and finally reports functions that are
"unused" (no calls) or "undeclared" (fewer than two declarations),
skipping the name `main`.

The external syntax-tree provider is modelled by `CNode`: each node
carries its kind, the field name it occupies in its parent (if any),
the result of `utf8_text` on its span (`none` models a non-UTF8 span,
for which the Rust `Result` is an `Err`), and its start (row, column).
The registry (`HashMap<String, FunctionStats>` in Rust) is modelled as
an association list in insertion order; `Registry.update` mirrors
`entry(..).or_default()`.  The Rust code unwraps the `utf8_text`
result, so a non-decodable span panics: the traversal functions return
`Option`, `none` marking that panic.
-/

/-- A source site `(PathBuf, usize, usize)`: file path, row, column. -/
abbrev Site := String × Nat × Nat

/-- `struct FunctionStats { declarations: Vec<..>, calls: Vec<..> }`. -/
structure FunctionStats where
  declarations : List Site := []
  calls : List Site := []
deriving Repr, DecidableEq, Inhabited

/-- The per-node data exposed by the tree provider: node kind, the
field name this node occupies inside its parent (tree-sitter children
may be named by a field), the UTF-8 decoding of its text span (`none`
models a span `utf8_text` rejects), and the start position. -/
structure NodeInfo where
  kind : String
  field : Option String := none
  text : Option String := none
  row : Nat := 0
  col : Nat := 0
deriving Repr, DecidableEq, Inhabited

/-- A concrete syntax tree node: its `NodeInfo` plus its direct
children in left-to-right order. -/
inductive CNode : Type where
  | mk : NodeInfo → List CNode → CNode
deriving Repr

/-- The node's own data. -/
def CNode.info : CNode → NodeInfo
  | .mk i _ => i

/-- The node's direct children, left to right. -/
def CNode.children : CNode → List CNode
  | .mk _ cs => cs

/-- `node.kind()`. -/
def CNode.kind (n : CNode) : String := n.info.kind

/-- `node.utf8_text(source)`, already decoded: `none` is the `Err` case. -/
def CNode.text (n : CNode) : Option String := n.info.text

/-- `node.start_position().row`. -/
def CNode.row (n : CNode) : Nat := n.info.row

/-- `node.start_position().column`. -/
def CNode.col (n : CNode) : Nat := n.info.col

/-- `node.child_by_field_name(f)`: the first direct child occupying
field `f`. -/
def CNode.childByField (n : CNode) (f : String) : Option CNode :=
  n.children.find? (fun c => c.info.field == some f)

/-- The registry `HashMap<String, FunctionStats>`, modelled as an
association list in insertion order. -/
abbrev Registry := List (String × FunctionStats)

/-- `function_stats.entry(name).or_default()` followed by a mutation
`f` of the entry's stats: update the existing entry in place, or
append a fresh default entry for an unseen key. -/
def Registry.update : Registry → String → (FunctionStats → FunctionStats) → Registry
  | [], name, f => [(name, f {})]
  | (k, v) :: rest, name, f =>
    if k = name then (k, f v) :: rest
    else (k, v) :: Registry.update rest name f

/-- `function_stats.get(name)`: lookup by key. -/
def Registry.lookup : Registry → String → Option FunctionStats
  | [], _ => none
  | (k, v) :: rest, name => if k = name then some v else Registry.lookup rest name

/-- `stats.declarations.push(site)`. -/
def FunctionStats.pushDecl (s : FunctionStats) (site : Site) : FunctionStats :=
  { s with declarations := s.declarations ++ [site] }

/-- `stats.calls.push(site)`. -/
def FunctionStats.pushCall (s : FunctionStats) (site : Site) : FunctionStats :=
  { s with calls := s.calls ++ [site] }

/-- The `match node.kind()` body of `find_function_stats`, acting on a
single node before its children are visited.  For a
`function_declarator` with a `declarator` field child, the child's
text is unwrapped (`none` text panics: result `none`) and a
declaration site at the child's start position is pushed; a
`call_expression` with a `function` field child likewise pushes a call
site; a node with a matching kind but a missing field, or any other
kind, leaves the registry untouched. -/
def processNode (path : String) (fs : Registry) (node : CNode) : Option Registry :=
  match node.kind with
  | "function_declarator" =>
    match node.childByField "declarator" with
    | some d =>
      match d.text with
      | some name => some (fs.update name (·.pushDecl (path, d.row, d.col)))
      | none => none
    | none => some fs
  | "call_expression" =>
    match node.childByField "function" with
    | some f =>
      match f.text with
      | some name => some (fs.update name (·.pushCall (path, f.row, f.col)))
      | none => none
    | none => some fs
  | _ => some fs

mutual

/-- `find_function_stats`: dispatch the node to the site extractor,
then recursively walk all direct children left to right.  `none`
models a panic from the unwrapped `utf8_text`. -/
def find_function_stats : CNode → String → Registry → Option Registry
  | .mk i cs, path, fs =>
    match processNode path fs (.mk i cs) with
    | none => none
    | some fs1 => findChildren cs path fs1

/-- The `for child in node.children(..)` loop of
`find_function_stats`, walking a list of subtrees in order. -/
def findChildren : List CNode → String → Registry → Option Registry
  | [], _, fs => some fs
  | c :: rest, path, fs =>
    match find_function_stats c path fs with
    | none => none
    | some fs1 => findChildren rest path fs1

end

mutual

/-- The pre-order listing of the tree: each node before its children. -/
def CNode.preorder : CNode → List CNode
  | .mk i cs => .mk i cs :: preorderList cs

/-- Pre-order listing of a forest, left to right. -/
def preorderList : List CNode → List CNode
  | [] => []
  | c :: rest => c.preorder ++ preorderList rest

end

mutual

/-- The total number of nodes in the tree. -/
def CNode.size : CNode → Nat
  | .mk _ cs => 1 + sizeList cs

/-- The total number of nodes in a forest. -/
def sizeList : List CNode → Nat
  | [] => 0
  | c :: rest => c.size + sizeList rest

end

/-- `parse_file`: given the result of `fs::read_to_string` (`none` is
an unreadable file), the external parser (`none` is an unparsable
file), run `find_function_stats` from the tree root; on either failure
the registry is untouched and a diagnostic line is surfaced.  The
outer `none` models a panic escaping from `find_function_stats`. -/
def parse_file (parse : String → Option CNode) (path : String)
    (content : Option String) (fs : Registry) :
    Option (Registry × List String) :=
  match content with
  | some text =>
    match parse text with
    | some tree =>
      match find_function_stats tree path fs with
      | some fs1 => some (fs1, [])
      | none => none
    | none => some (fs, ["Could not parse file: " ++ path])
  | none => some (fs, ["Could not read file: " ++ path])

/-- The per-file loop of `main`: each discovered file (path plus the
outcome of reading it) is handed to `parse_file`; diagnostics
accumulate; the registry threads through. -/
def run_files (parse : String → Option CNode) :
    List (String × Option String) → Registry → List String →
    Option (Registry × List String)
  | [], fs, ds => some (fs, ds)
  | (p, c) :: rest, fs, ds =>
    match parse_file parse p c fs with
    | none => none
    | some (fs1, ds1) => run_files parse rest fs1 (ds ++ ds1)

/-- One whole analysis run of `main`: the registry is created empty at
run start (`HashMap::new()`), with no cross-run persistence, and every
discovered file is processed in order. -/
def analysisRun (parse : String → Option CNode)
    (files : List (String × Option String)) :
    Option (Registry × List String) :=
  run_files parse files [] []

/-- One reported finding: the function name and the positions printed
under it (one `-> file line:col` line per site). -/
structure ReportEntry where
  name : String
  positions : List Site
deriving Repr, DecidableEq

/-- The print loop of `main` over the registry, as the pair
(unused findings, undeclared findings) in registry iteration order:
`main` is skipped entirely; a function with no calls is reported
unused with all its declaration positions; a function with fewer than
two declarations is reported undeclared with all its declaration
positions.  The two rules are applied independently. -/
def report : Registry → List ReportEntry × List ReportEntry
  | [] => ([], [])
  | (name, stats) :: rest =>
    let (u, d) := report rest
    if name = "main" then (u, d)
    else
      ((if stats.calls.length = 0 then [⟨name, stats.declarations⟩] else []) ++ u,
       (if stats.declarations.length < 2 then [⟨name, stats.declarations⟩] else []) ++ d)

/-! ## Registry lemmas -/

theorem Registry.lookup_update_self (r : Registry) (name : String)
    (f : FunctionStats → FunctionStats) :
    (r.update name f).lookup name = some (f ((r.lookup name).getD {})) := by
  induction r with
  | nil => simp [Registry.update, Registry.lookup]
  | cons p rest ih =>
    obtain ⟨k, v⟩ := p
    by_cases h : k = name <;>
      simp [Registry.update, Registry.lookup, h, ih]

theorem Registry.lookup_update_ne (r : Registry) (name k : String)
    (f : FunctionStats → FunctionStats) (h : k ≠ name) :
    (r.update name f).lookup k = r.lookup k := by
  induction r with
  | nil => simp [Registry.update, Registry.lookup, Ne.symm h]
  | cons p rest ih =>
    obtain ⟨k', v⟩ := p
    by_cases h' : k' = name
    · subst h'
      simp [Registry.update, Registry.lookup, Ne.symm h]
    · by_cases h'' : k' = k <;>
        simp [Registry.update, Registry.lookup, h, h', h'', ih]

theorem Registry.mem_update (r : Registry) (name : String)
    (f : FunctionStats → FunctionStats) (p : String × FunctionStats)
    (hp : p ∈ r.update name f) :
    p ∈ r ∨ ∃ v, p = (name, f v) := by
  induction r with
  | nil =>
    simp [Registry.update] at hp
    exact Or.inr ⟨{}, hp⟩
  | cons q rest ih =>
    obtain ⟨k, v⟩ := q
    by_cases h : k = name
    · subst h
      simp [Registry.update] at hp
      rcases hp with hp | hp
      · exact Or.inr ⟨v, hp⟩
      · exact Or.inl (List.mem_cons_of_mem _ hp)
    · simp [Registry.update, h] at hp
      rcases hp with hp | hp
      · exact Or.inl (by simp [hp])
      · rcases ih hp with h' | h'
        · exact Or.inl (List.mem_cons_of_mem _ h')
        · exact Or.inr h'

theorem Registry.lookup_of_mem_nodup (r : Registry)
    (hnd : (r.map Prod.fst).Nodup) (k : String) (v : FunctionStats)
    (hm : (k, v) ∈ r) : r.lookup k = some v := by
  induction r with
  | nil => simp at hm
  | cons q rest ih =>
    obtain ⟨k', v'⟩ := q
    rw [List.map_cons, List.nodup_cons] at hnd
    rcases List.mem_cons.mp hm with h | h
    · rw [Prod.mk.injEq] at h
      simp [Registry.lookup, h.1.symm, h.2]
    · have hk : ¬k' = k := fun he => hnd.1 (by
        rw [he]
        exact List.mem_map.mpr ⟨(k, v), h, rfl⟩)
      simp [Registry.lookup, hk, ih hnd.2 h]

theorem Registry.mem_unique (r : Registry)
    (hnd : (r.map Prod.fst).Nodup) (k : String) (v v' : FunctionStats)
    (h1 : (k, v) ∈ r) (h2 : (k, v') ∈ r) : v = v' := by
  have e1 := Registry.lookup_of_mem_nodup r hnd k v h1
  have e2 := Registry.lookup_of_mem_nodup r hnd k v' h2
  exact Option.some.inj (e1 ▸ e2)

/-! ## Report characterization -/

/-- The finding the print loop emits for one registry entry under the
unused rule, if any: skip `main`, then report when `calls` is empty. -/
def unusedEntry (p : String × FunctionStats) : Option ReportEntry :=
  if p.1 = "main" then none
  else if p.2.calls.length = 0 then some ⟨p.1, p.2.declarations⟩ else none

/-- The finding the print loop emits for one registry entry under the
undeclared rule, if any: skip `main`, then report when `declarations`
has fewer than two entries. -/
def undeclaredEntry (p : String × FunctionStats) : Option ReportEntry :=
  if p.1 = "main" then none
  else if p.2.declarations.length < 2 then some ⟨p.1, p.2.declarations⟩ else none

theorem report_eq (r : Registry) :
    report r = (r.filterMap unusedEntry, r.filterMap undeclaredEntry) := by
  induction r with
  | nil => rfl
  | cons p rest ih =>
    obtain ⟨name, stats⟩ := p
    by_cases hm : name = "main"
    · simp [report, ih, hm, unusedEntry, undeclaredEntry]
    · by_cases hc : stats.calls.length = 0 <;>
        by_cases hd : stats.declarations.length < 2 <;>
          simp [report, ih, hm, hc, hd, unusedEntry, undeclaredEntry]

/-! ## Claim C1: undeclared classification -/

/-- **C1**: for every function name other than `main` present in the
registry, the name is reported in the "undeclared" category iff its
`declarations` sequence has fewer than two entries, and the report
lists exactly the positions in its `declarations` sequence.  In
particular a function declared zero times but called at least once is
reported undeclared with an empty position list, and a function
declared exactly once is also reported undeclared. -/
theorem undeclared_report_iff (r : Registry) (name : String) (stats : FunctionStats)
    (hnd : (r.map Prod.fst).Nodup) (hmem : (name, stats) ∈ r) (hmain : name ≠ "main") :
    ((∃ e ∈ (report r).2, e.name = name) ↔ stats.declarations.length < 2) ∧
    (∀ e ∈ (report r).2, e.name = name → e.positions = stats.declarations) := by
  have key : ∀ e ∈ (report r).2, e.name = name →
      e.positions = stats.declarations ∧ stats.declarations.length < 2 := by
    intro e he hename
    rw [report_eq] at he
    rcases List.mem_filterMap.mp he with ⟨⟨k, v⟩, hkv, hu⟩
    by_cases h1 : k = "main"
    · simp [undeclaredEntry, h1] at hu
    · by_cases h2 : v.declarations.length < 2
      · simp [undeclaredEntry, h1, h2] at hu
        rw [← hu] at hename
        have hename' : k = name := hename
        subst hename'
        have hv : v = stats := Registry.mem_unique r hnd k v stats hkv hmem
        subst hv
        exact ⟨by rw [← hu], h2⟩
      · simp [undeclaredEntry, h1, h2] at hu
  refine ⟨⟨fun hex => ?_, fun hlen => ?_⟩, fun e he hename => (key e he hename).1⟩
  · rcases hex with ⟨e, he, hename⟩
    exact (key e he hename).2
  · refine ⟨⟨name, stats.declarations⟩, ?_, rfl⟩
    rw [report_eq]
    exact List.mem_filterMap.mpr ⟨(name, stats), hmem, by
      simp [undeclaredEntry, hmain, hlen]⟩

/-- Witness for C1 at a concrete registry: `foo` declared once, never
called, is reported undeclared with its single declaration position. -/
theorem undeclared_report_iff_instance :
    ((∃ e ∈ (report [("foo",
          ({ declarations := [("a.c", 1, 2)], calls := [] } : FunctionStats))]).2,
        e.name = "foo") ↔
      ({ declarations := [("a.c", 1, 2)], calls := [] } :
        FunctionStats).declarations.length < 2) ∧
    (∀ e ∈ (report [("foo",
          ({ declarations := [("a.c", 1, 2)], calls := [] } : FunctionStats))]).2,
      e.name = "foo" →
        e.positions = ({ declarations := [("a.c", 1, 2)], calls := [] } :
          FunctionStats).declarations) :=
  undeclared_report_iff _ "foo" _ (by decide) (by decide) (by decide)

/-! ## Claim C2: unused classification -/

/-- **C2**: for every function name other than `main` present in the
registry, the name is reported in the "unused" category iff its
`calls` sequence is empty, and the report lists every position in its
`declarations` sequence.  In particular a function declared exactly
once and never called is reported unused with exactly the one
declaration position. -/
theorem unused_report_iff (r : Registry) (name : String) (stats : FunctionStats)
    (hnd : (r.map Prod.fst).Nodup) (hmem : (name, stats) ∈ r) (hmain : name ≠ "main") :
    ((∃ e ∈ (report r).1, e.name = name) ↔ stats.calls = []) ∧
    (∀ e ∈ (report r).1, e.name = name → e.positions = stats.declarations) := by
  have key : ∀ e ∈ (report r).1, e.name = name →
      e.positions = stats.declarations ∧ stats.calls = [] := by
    intro e he hename
    rw [report_eq] at he
    rcases List.mem_filterMap.mp he with ⟨⟨k, v⟩, hkv, hu⟩
    by_cases h1 : k = "main"
    · simp [unusedEntry, h1] at hu
    · by_cases h2 : v.calls.length = 0
      · simp [unusedEntry, h1, h2] at hu
        rw [← hu] at hename
        have hename' : k = name := hename
        subst hename'
        have hv : v = stats := Registry.mem_unique r hnd k v stats hkv hmem
        subst hv
        exact ⟨by rw [← hu], List.length_eq_zero.mp h2⟩
      · simp [unusedEntry, h1, h2] at hu
  refine ⟨⟨fun hex => ?_, fun hcalls => ?_⟩, fun e he hename => (key e he hename).1⟩
  · rcases hex with ⟨e, he, hename⟩
    exact (key e he hename).2
  · refine ⟨⟨name, stats.declarations⟩, ?_, rfl⟩
    rw [report_eq]
    exact List.mem_filterMap.mpr ⟨(name, stats), hmem, by
      simp [unusedEntry, hmain, hcalls]⟩

/-- Witness for C2 at a concrete registry: `foo` declared once at
(1, 2) and never called is reported unused with that one position. -/
theorem unused_report_iff_instance :
    ((∃ e ∈ (report [("foo",
          ({ declarations := [("a.c", 1, 2)], calls := [] } : FunctionStats))]).1,
        e.name = "foo") ↔
      ({ declarations := [("a.c", 1, 2)], calls := [] } : FunctionStats).calls = []) ∧
    (∀ e ∈ (report [("foo",
          ({ declarations := [("a.c", 1, 2)], calls := [] } : FunctionStats))]).1,
      e.name = "foo" →
        e.positions = ({ declarations := [("a.c", 1, 2)], calls := [] } :
          FunctionStats).declarations) :=
  unused_report_iff _ "foo" _ (by decide) (by decide) (by decide)

/-! ## Claim C3: main exclusion -/

/-- **C3**: regardless of how many declaration or call sites are
recorded for the name `main`, no finding named `main` ever appears in
either the unused or the undeclared category of the report. -/
theorem main_never_reported (r : Registry) :
    ((report r).1 ++ (report r).2).all (fun e => e.name != "main") = true := by
  rw [report_eq, List.all_eq_true]
  intro e he
  rw [List.mem_append] at he
  rcases he with he | he
  · rcases List.mem_filterMap.mp he with ⟨⟨k, v⟩, _, hu⟩
    by_cases h1 : k = "main"
    · simp [unusedEntry, h1] at hu
    · by_cases h2 : v.calls.length = 0 <;> simp [unusedEntry, h1, h2] at hu
      rw [← hu]
      simpa using h1
  · rcases List.mem_filterMap.mp he with ⟨⟨k, v⟩, _, hu⟩
    by_cases h1 : k = "main"
    · simp [undeclaredEntry, h1] at hu
    · by_cases h2 : v.declarations.length < 2 <;> simp [undeclaredEntry, h1, h2] at hu
      rw [← hu]
      simpa using h1

/-! ## The walk as a fold over the pre-order listing -/

mutual

theorem find_eq_foldlM : ∀ (n : CNode) (path : String) (fs : Registry),
    find_function_stats n path fs = n.preorder.foldlM (processNode path) fs
  | .mk i cs, path, fs => by
    rw [find_function_stats, CNode.preorder, List.foldlM_cons]
    cases h : processNode path fs (.mk i cs) with
    | none => simp
    | some fs1 => simpa using findChildren_eq_foldlM cs path fs1

theorem findChildren_eq_foldlM : ∀ (l : List CNode) (path : String) (fs : Registry),
    findChildren l path fs = (preorderList l).foldlM (processNode path) fs
  | [], _, _ => rfl
  | c :: rest, path, fs => by
    rw [findChildren, preorderList, List.foldlM_append,
      ← find_eq_foldlM c path fs]
    cases h : find_function_stats c path fs with
    | none => simp
    | some fs1 => simpa using findChildren_eq_foldlM rest path fs1

end

mutual

theorem preorder_length : ∀ n : CNode, n.preorder.length = n.size
  | .mk i cs => by
    rw [CNode.preorder, CNode.size, List.length_cons, preorderList_length cs]
    omega

theorem preorderList_length : ∀ l : List CNode, (preorderList l).length = sizeList l
  | [] => rfl
  | c :: rest => by
    rw [preorderList, sizeList, List.length_append, preorder_length c,
      preorderList_length rest]

end

/-! ## Claim C7: traversal completeness and pre-order -/

/-- **C7**: the tree walk is exactly a fold of the site extractor over
the pre-order listing of the tree, so each of the N nodes is visited
exactly once (the listing has length N, the total node count), in
pre-order: every node's listing puts the node itself before the
listings of its children, so each node is dispatched to the extractor
before any of its descendants, and no node is skipped regardless of
kind. -/
theorem walker_visits_preorder (n : CNode) (path : String) (fs : Registry) :
    find_function_stats n path fs = n.preorder.foldlM (processNode path) fs ∧
    n.preorder.length = n.size ∧
    (∀ m : CNode, m.preorder = m :: preorderList m.children) :=
  ⟨find_eq_foldlM n path fs, preorder_length n, fun m => by cases m with
    | mk i cs => rw [CNode.preorder, CNode.children]⟩

/-! ## Counting declaration and call sites -/

/-- The registry key a node contributes as a declaration site, if any:
a `function_declarator` whose `declarator` field child has decodable
text contributes that text. -/
def declKey (node : CNode) : Option String :=
  if node.kind = "function_declarator" then
    (node.childByField "declarator").bind CNode.text
  else none

/-- The registry key a node contributes as a call site, if any: a
`call_expression` whose `function` field child has decodable text
contributes that text. -/
def callKey (node : CNode) : Option String :=
  if node.kind = "call_expression" then
    (node.childByField "function").bind CNode.text
  else none

/-- The length of the `declarations` sequence stored for `s` (zero
when the key is absent). -/
def declsLen (fs : Registry) (s : String) : Nat :=
  ((fs.lookup s).getD {}).declarations.length

/-- The length of the `calls` sequence stored for `s` (zero when the
key is absent). -/
def callsLen (fs : Registry) (s : String) : Nat :=
  ((fs.lookup s).getD {}).calls.length

theorem processNode_counts (path : String) (fs : Registry) (node : CNode)
    (fs' : Registry) (s : String) (h : processNode path fs node = some fs') :
    declsLen fs' s = declsLen fs s + (if declKey node = some s then 1 else 0) ∧
    callsLen fs' s = callsLen fs s + (if callKey node = some s then 1 else 0) := by
  unfold processNode at h
  split at h
  case _ hk =>
    cases hcf : node.childByField "declarator" with
    | none =>
      simp only [hcf] at h
      cases h
      simp [declKey, callKey, hk, hcf]
    | some d =>
      simp only [hcf] at h
      cases ht : d.text with
      | none => simp [ht] at h
      | some name =>
        simp only [ht] at h
        cases h
        have hdk : declKey node = some name := by simp [declKey, hk, hcf, ht]
        have hck : callKey node = none := by simp [callKey, hk]
        by_cases hs : s = name
        · subst hs
          simp [declsLen, callsLen, Registry.lookup_update_self, hdk, hck,
            FunctionStats.pushDecl]
        · have hne : ¬declKey node = some s := by
            rw [hdk]
            exact fun he => hs (Option.some.inj he).symm
          simp [declsLen, callsLen, Registry.lookup_update_ne _ _ _ _ hs, hne, hck]
  case _ hk =>
    cases hcf : node.childByField "function" with
    | none =>
      simp only [hcf] at h
      cases h
      simp [declKey, callKey, hk, hcf]
    | some f =>
      simp only [hcf] at h
      cases ht : f.text with
      | none => simp [ht] at h
      | some name =>
        simp only [ht] at h
        cases h
        have hck : callKey node = some name := by simp [callKey, hk, hcf, ht]
        have hdk : declKey node = none := by simp [declKey, hk]
        by_cases hs : s = name
        · subst hs
          simp [declsLen, callsLen, Registry.lookup_update_self, hdk, hck,
            FunctionStats.pushCall]
        · have hne : ¬callKey node = some s := by
            rw [hck]
            exact fun he => hs (Option.some.inj he).symm
          simp [declsLen, callsLen, Registry.lookup_update_ne _ _ _ _ hs, hne, hdk]
  case _ hk1 hk2 =>
    cases h
    have h1 : declKey node = none := by
      unfold declKey
      rw [if_neg hk1]
    have h2 : callKey node = none := by
      unfold callKey
      rw [if_neg hk2]
    simp [h1, h2]

theorem foldlM_counts (path : String) (s : String) :
    ∀ (l : List CNode) (fs fs' : Registry),
    l.foldlM (processNode path) fs = some fs' →
    declsLen fs' s = declsLen fs s + l.countP (fun n => declKey n == some s) ∧
    callsLen fs' s = callsLen fs s + l.countP (fun n => callKey n == some s) := by
  intro l
  induction l with
  | nil =>
    intro fs fs' h
    cases h
    simp
  | cons a l ih =>
    intro fs fs' h
    rw [List.foldlM_cons] at h
    cases ha : processNode path fs a with
    | none => simp [ha] at h
    | some fs1 =>
      rw [ha] at h
      have h' : l.foldlM (processNode path) fs1 = some fs' := h
      obtain ⟨hd1, hc1⟩ := processNode_counts path fs a fs1 s ha
      obtain ⟨hd2, hc2⟩ := ih fs1 fs' h'
      constructor
      · rw [hd2, hd1, List.countP_cons]
        by_cases hk : declKey a = some s
        · rw [if_pos hk, if_pos (by simp [hk])]
          omega
        · rw [if_neg hk, if_neg (by simp [hk])]
          omega
      · rw [hc2, hc1, List.countP_cons]
        by_cases hk : callKey a = some s
        · rw [if_pos hk, if_pos (by simp [hk])]
          omega
        · rw [if_neg hk, if_neg (by simp [hk])]
          omega

/-! ## Claim C6: accumulation correctness -/

/-- **C6**: for a single input file whose tree contains exactly one
declaration site and exactly two call sites for the name `foo`
(counted over the pre-order node listing), the registry after
processing that file maps key `foo` to a record with `declarations` of
length 1 and `calls` of length 2. -/
theorem accumulation_counts (tree : CNode) (path : String) (fs' : Registry)
    (hrun : find_function_stats tree path [] = some fs')
    (hdecl : tree.preorder.countP (fun n => declKey n == some "foo") = 1)
    (hcall : tree.preorder.countP (fun n => callKey n == some "foo") = 2) :
    ∃ stats, fs'.lookup "foo" = some stats ∧
      stats.declarations.length = 1 ∧ stats.calls.length = 2 := by
  rw [find_eq_foldlM] at hrun
  obtain ⟨hd, hc⟩ := foldlM_counts path "foo" tree.preorder [] fs' hrun
  rw [hdecl] at hd
  rw [hcall] at hc
  have h0d : declsLen [] "foo" = 0 := rfl
  have h0c : callsLen [] "foo" = 0 := rfl
  rw [h0d] at hd
  rw [h0c] at hc
  cases hl : fs'.lookup "foo" with
  | none =>
    exfalso
    unfold declsLen at hd
    rw [hl] at hd
    simp at hd
  | some stats =>
    refine ⟨stats, rfl, ?_, ?_⟩
    · unfold declsLen at hd
      rw [hl] at hd
      simpa using hd
    · unfold callsLen at hc
      rw [hl] at hc
      simpa using hc

/-- Witness for C6: a concrete tree with `foo` declared once at
(0, 4) and called twice, at (1, 0) and (2, 0). -/
theorem accumulation_counts_instance :
    ∃ stats,
      Registry.lookup [("foo",
        { declarations := [("a.c", 0, 4)],
          calls := [("a.c", 1, 0), ("a.c", 2, 0)] })] "foo" = some stats ∧
      stats.declarations.length = 1 ∧ stats.calls.length = 2 :=
  accumulation_counts
    (.mk ⟨"translation_unit", none, none, 0, 0⟩
      [.mk ⟨"function_declarator", none, none, 0, 0⟩
        [.mk ⟨"identifier", some "declarator", some "foo", 0, 4⟩ []],
       .mk ⟨"call_expression", none, none, 1, 0⟩
        [.mk ⟨"identifier", some "function", some "foo", 1, 0⟩ []],
       .mk ⟨"call_expression", none, none, 2, 0⟩
        [.mk ⟨"identifier", some "function", some "foo", 2, 0⟩ []]])
    "a.c" _ (by decide) (by decide) (by decide)

/-! ## Claim C5: registry invariant -/

/-- Every name present in the registry has at least one recorded site:
its `declarations` and `calls` sequences are not both empty. -/
def RegistryInv (fs : Registry) : Prop :=
  ∀ p ∈ fs, p.2.declarations ≠ [] ∨ p.2.calls ≠ []

theorem registryInv_update (fs : Registry) (name : String)
    (f : FunctionStats → FunctionStats)
    (hInv : RegistryInv fs)
    (hf : ∀ v, (f v).declarations ≠ [] ∨ (f v).calls ≠ []) :
    RegistryInv (fs.update name f) := by
  intro p hp
  rcases Registry.mem_update fs name f p hp with h | ⟨v, rfl⟩
  · exact hInv p h
  · exact hf v

theorem registryInv_processNode (path : String) (fs : Registry) (node : CNode)
    (fs' : Registry) (hInv : RegistryInv fs)
    (h : processNode path fs node = some fs') : RegistryInv fs' := by
  unfold processNode at h
  split at h
  case _ =>
    cases hcf : node.childByField "declarator" with
    | none =>
      simp only [hcf] at h
      cases h
      exact hInv
    | some d =>
      simp only [hcf] at h
      cases ht : d.text with
      | none => simp [ht] at h
      | some name =>
        simp only [ht] at h
        cases h
        exact registryInv_update fs name _ hInv fun v => Or.inl (by
          simp [FunctionStats.pushDecl])
  case _ =>
    cases hcf : node.childByField "function" with
    | none =>
      simp only [hcf] at h
      cases h
      exact hInv
    | some f =>
      simp only [hcf] at h
      cases ht : f.text with
      | none => simp [ht] at h
      | some name =>
        simp only [ht] at h
        cases h
        exact registryInv_update fs name _ hInv fun v => Or.inr (by
          simp [FunctionStats.pushCall])
  case _ =>
    cases h
    exact hInv

theorem registryInv_foldlM (path : String) :
    ∀ (l : List CNode) (fs fs' : Registry), RegistryInv fs →
    l.foldlM (processNode path) fs = some fs' → RegistryInv fs' := by
  intro l
  induction l with
  | nil =>
    intro fs fs' hInv h
    cases h
    exact hInv
  | cons a l ih =>
    intro fs fs' hInv h
    rw [List.foldlM_cons] at h
    cases ha : processNode path fs a with
    | none => simp [ha] at h
    | some fs1 =>
      rw [ha] at h
      have h' : l.foldlM (processNode path) fs1 = some fs' := h
      exact ih fs1 fs' (registryInv_processNode path fs a fs1 hInv ha) h'

/-- **C5**: the registry invariant — every key present has at least
one entry in `declarations` and `calls` combined — is preserved both
by the processing of any single node and by the whole walk of any
subtree.  Since the registry starts empty (where the invariant holds
vacuously) and grows only through these steps, at every point after
processing any node, and at run end, every key was created lazily by
the sighting that gave it its first entry, never in advance with both
sequences empty. -/
theorem registry_invariant (n : CNode) (path : String) (fs : Registry)
    (hInv : RegistryInv fs) :
    (∀ fs', processNode path fs n = some fs' → RegistryInv fs') ∧
    (∀ fs', find_function_stats n path fs = some fs' → RegistryInv fs') := by
  refine ⟨fun fs' h => registryInv_processNode path fs n fs' hInv h, fun fs' h => ?_⟩
  rw [find_eq_foldlM] at h
  exact registryInv_foldlM path n.preorder fs fs' hInv h

/-- Witness for C5: the invariant holds for the registry produced by a
concrete run that sights `foo` once as a declaration, starting from
the empty registry. -/
theorem registry_invariant_instance :
    RegistryInv [("foo", { declarations := [("a.c", 0, 4)], calls := [] })] :=
  (registry_invariant
    (.mk ⟨"function_declarator", none, none, 0, 0⟩
      [.mk ⟨"identifier", some "declarator", some "foo", 0, 4⟩ []])
    "a.c" [] (by simp [RegistryInv])).2
    [("foo", { declarations := [("a.c", 0, 4)], calls := [] })] (by decide)

/-! ## Claim C4: extraction-mismatch behavior -/

/-- Counterexample to the claim that an extraction failure never
causes a fatal error: on a `function_declarator` node whose
`declarator` field child is present but has a non-decodable text span,
the code unwraps the `utf8_text` error and panics (modelled as
`none`), instead of skipping the node and continuing. -/
theorem nonUTF8_span_panics :
    find_function_stats
      (.mk ⟨"function_declarator", none, none, 0, 0⟩
        [.mk ⟨"identifier", some "declarator", none, 0, 0⟩ []])
      "a.c" [] = none := rfl

/-- **C4 (amended)**: a visited node whose kind matches a pattern but
whose expected field is missing is skipped with no registry mutation,
and the traversal continues with the node's children; but when the
field is present and its text span is not decodable as UTF-8, the
program terminates with a panic (the code unwraps the `utf8_text`
result). -/
theorem extraction_mismatch (n : CNode) (path : String) (fs : Registry) :
    (n.kind = "function_declarator" → n.childByField "declarator" = none →
      find_function_stats n path fs = findChildren n.children path fs) ∧
    (n.kind = "call_expression" → n.childByField "function" = none →
      find_function_stats n path fs = findChildren n.children path fs) ∧
    (∀ d, n.kind = "function_declarator" → n.childByField "declarator" = some d →
      d.text = none → find_function_stats n path fs = none) ∧
    (∀ d, n.kind = "call_expression" → n.childByField "function" = some d →
      d.text = none → find_function_stats n path fs = none) := by
  cases n with
  | mk i cs =>
    refine ⟨fun hk hf => ?_, fun hk hf => ?_,
      fun d hk hf ht => ?_, fun d hk hf ht => ?_⟩
    · have hp : processNode path fs (.mk i cs) = some fs := by
        simp [processNode, hk, hf]
      rw [find_function_stats, hp, CNode.children]
    · have hp : processNode path fs (.mk i cs) = some fs := by
        simp [processNode, hk, hf]
      rw [find_function_stats, hp, CNode.children]
    · have hp : processNode path fs (.mk i cs) = none := by
        simp [processNode, hk, hf, ht]
      rw [find_function_stats, hp]
    · have hp : processNode path fs (.mk i cs) = none := by
        simp [processNode, hk, hf, ht]
      rw [find_function_stats, hp]

/-- Witness for C4 (amended), at concrete nodes: a declarator node and
a call node with the expected field missing are skipped and the walk
continues into their (empty) child lists; the same kinds with a
present field of non-decodable text panic. -/
theorem extraction_mismatch_instance :
    (find_function_stats (.mk ⟨"function_declarator", none, none, 0, 0⟩ []) "a.c" [] =
      findChildren (CNode.children (.mk ⟨"function_declarator", none, none, 0, 0⟩ []))
        "a.c" []) ∧
    (find_function_stats (.mk ⟨"call_expression", none, none, 0, 0⟩ []) "a.c" [] =
      findChildren (CNode.children (.mk ⟨"call_expression", none, none, 0, 0⟩ []))
        "a.c" []) ∧
    (find_function_stats
      (.mk ⟨"call_expression", none, none, 0, 0⟩
        [.mk ⟨"identifier", some "function", none, 0, 0⟩ []]) "a.c" [] = none) :=
  ⟨(extraction_mismatch (.mk ⟨"function_declarator", none, none, 0, 0⟩ []) "a.c" []).1
      rfl rfl,
   (extraction_mismatch (.mk ⟨"call_expression", none, none, 0, 0⟩ []) "a.c" []).2.1
      rfl rfl,
   (extraction_mismatch
      (.mk ⟨"call_expression", none, none, 0, 0⟩
        [.mk ⟨"identifier", some "function", none, 0, 0⟩ []]) "a.c" []).2.2.2
      (.mk ⟨"identifier", some "function", none, 0, 0⟩ []) rfl rfl rfl⟩

/-! ## Claim C9: failed files are skipped, the run continues -/

/-- **C9**: a file that is unreadable, or for which the parser returns
no tree, contributes nothing to the registry: `parse_file` returns the
registry unchanged together with one diagnostic line, and the run loop
continues with the remaining files exactly as if only they were
processed, with the diagnostic appended. -/
theorem failed_file_skipped (parse : String → Option CNode) (p : String)
    (c : Option String) (fs : Registry) (ds : List String)
    (rest : List (String × Option String))
    (hbad : c = none ∨ ∃ t, c = some t ∧ parse t = none) :
    ∃ d : String, parse_file parse p c fs = some (fs, [d]) ∧
      run_files parse ((p, c) :: rest) fs ds = run_files parse rest fs (ds ++ [d]) := by
  rcases hbad with rfl | ⟨t, rfl, hpt⟩
  · exact ⟨"Could not read file: " ++ p, rfl, by simp [run_files, parse_file]⟩
  · refine ⟨"Could not parse file: " ++ p, ?_, ?_⟩
    · simp [parse_file, hpt]
    · simp [run_files, parse_file, hpt]

/-- Witness for C9: a concrete unreadable file is skipped with a
diagnostic and the run continues with the (empty) remaining list. -/
theorem failed_file_skipped_instance :
    ∃ d : String, parse_file (fun _ => none) "a.c" none [] = some ([], [d]) ∧
      run_files (fun _ => none) [("a.c", none)] [] [] =
        run_files (fun _ => none) [] [] ([] ++ [d]) :=
  failed_file_skipped (fun _ => none) "a.c" none [] [] [] (Or.inl rfl)

/-! ## Claim C10: call keys are the verbatim field text -/

/-- **C10**: for a `call_expression` node whose `function` field child
is present with decodable text `s` — whatever expression that text is,
identifier or not — the extractor does not skip the node: it records a
call site under the registry key `s` verbatim, at the field child's
start position, which ends up as the last entry of that key's `calls`
sequence. -/
theorem call_text_recorded (n : CNode) (path : String) (fs : Registry)
    (f : CNode) (s : String) (hk : n.kind = "call_expression")
    (hf : n.childByField "function" = some f) (ht : f.text = some s) :
    processNode path fs n = some (fs.update s (·.pushCall (path, f.row, f.col))) ∧
    ∃ stats, (fs.update s (·.pushCall (path, f.row, f.col))).lookup s = some stats ∧
      stats.calls ≠ [] ∧ stats.calls.getLast? = some (path, f.row, f.col) := by
  refine ⟨by simp [processNode, hk, hf, ht], ?_⟩
  rw [Registry.lookup_update_self]
  refine ⟨_, rfl, ?_, ?_⟩ <;> simp [FunctionStats.pushCall]

/-- Witness for C10 at a concrete non-identifier callee: the whole
text `(*fp)` of a parenthesized pointer dereference in the `function`
field is recorded verbatim as a registry key. -/
theorem call_text_recorded_instance :
    (processNode "a.c" []
        (.mk ⟨"call_expression", none, none, 3, 0⟩
          [.mk ⟨"parenthesized_expression", some "function", some "(*fp)", 3, 4⟩ []]) =
      some (Registry.update [] "(*fp)" (·.pushCall ("a.c", 3, 4)))) ∧
    ∃ stats,
      (Registry.update [] "(*fp)" (·.pushCall ("a.c", 3, 4))).lookup "(*fp)" =
        some stats ∧
      stats.calls ≠ [] ∧ stats.calls.getLast? = some ("a.c", 3, 4) :=
  call_text_recorded
    (.mk ⟨"call_expression", none, none, 3, 0⟩
      [.mk ⟨"parenthesized_expression", some "function", some "(*fp)", 3, 4⟩ []])
    "a.c" []
    (.mk ⟨"parenthesized_expression", some "function", some "(*fp)", 3, 4⟩ [])
    "(*fp)" rfl rfl rfl

/-! ## Claim C8: determinism and no cross-run persistence -/

/-- **C8**: two analysis runs over the same unchanged input list yield
identical registry contents — the same key set and, for every key, the
same stored record — and every run computes from the empty registry:
the run is a pure function of its inputs, with no cross-run state. -/
theorem run_deterministic (parse : String → Option CNode)
    (files : List (String × Option String)) (out1 out2 : Registry × List String)
    (h1 : analysisRun parse files = some out1)
    (h2 : analysisRun parse files = some out2) :
    out1.1.map Prod.fst = out2.1.map Prod.fst ∧
    (∀ name, out1.1.lookup name = out2.1.lookup name) ∧
    analysisRun parse files = run_files parse files [] [] := by
  rw [h1] at h2
  cases Option.some.inj h2
  exact ⟨rfl, fun _ => rfl, rfl⟩

/-- Witness for C8 at a concrete input set (one file the parser
rejects): both runs produce the same (empty) registry. -/
theorem run_deterministic_instance :
    (([] : Registry).map Prod.fst = ([] : Registry).map Prod.fst) ∧
    (∀ name, ([] : Registry).lookup name = ([] : Registry).lookup name) ∧
    analysisRun (fun _ => none) [("a.c", some "int f();")] =
      run_files (fun _ => none) [("a.c", some "int f();")] [] [] :=
  run_deterministic (fun _ => none) [("a.c", some "int f();")]
    ([], ["Could not parse file: a.c"]) ([], ["Could not parse file: a.c"]) rfl rfl
